import Mathlib

/-
Verification of the DOCX style extraction pipeline (src/docx_style_parser.cpp).

The XML tree handed over by libxml2 and the archive handed over by libzip are
external collaborators; they are modelled by explicit data (Node, ZipArchive,
FileSystem, XmlParser).  Every extraction function below is a direct shallow
embedding of the corresponding C++ function of src/docx_style_parser.cpp,
keeping the source's names.
-/

set_option maxRecDepth 4000

namespace Docx

/-- An XML node as exposed by libxml2: an element node with a tag name, an
ordered attribute list and ordered children, or a text node.  Tag comparison
in the source is by local name only (xmlStrcmp on node->name). -/
inductive Node where
  | elem (tag : String) (attrs : List (String × String)) (children : List Node)
  | text (s : String)

/-- Model of node->type == XML_ELEMENT_NODE. -/
def isElement : Node → Bool
  | .elem _ _ _ => true
  | .text _ => false

/-- Model of node->name (only inspected on element nodes in the source). -/
def nodeTag : Node → String
  | .elem t _ _ => t
  | .text _ => ""

/-- Model of node->children as an ordered list (the source walks the sibling
linked list). -/
def childrenOf : Node → List Node
  | .elem _ _ cs => cs
  | .text _ => []

/-- Model of node->properties, the ordered attribute list. -/
def attrsOf : Node → List (String × String)
  | .elem _ attrs _ => attrs
  | .text _ => []

/-- Model of xmlGetProp: look an attribute up by name, first match in
attribute order. -/
def getProp (n : Node) (attrName : String) : Option String :=
  (attrsOf n).lookup attrName

mutual
/-- Model of xmlNodeGetContent on a node: concatenation of the text content
of the node's descendants in document order. -/
def nodeContent : Node → String
  | .text s => s
  | .elem _ _ cs => listContent cs

/-- Concatenated content of a list of sibling nodes. -/
def listContent : List Node → String
  | [] => ""
  | c :: cs => nodeContent c ++ listContent cs
end

/-- Embedding of struct StyleInfo (docx_style_parser.h).  The std::map
properties is modelled as an association list with unique keys; mapSet below
is the map's operator[] assignment. -/
structure StyleInfo where
  name : String := ""
  type : String := ""
  properties : List (String × String) := []
  fontName : String := ""
  fontSize : String := ""
deriving Repr, DecidableEq

/-- Model of std::map operator[] assignment: replace the value if the key is
present, otherwise add the binding. -/
def mapSet (m : List (String × String)) (k v : String) : List (String × String) :=
  match m with
  | [] => [(k, v)]
  | (k₁, v₁) :: rest => if k₁ = k then (k, v) :: rest else (k₁, v₁) :: mapSet rest k v

/-- Embedding of findStyleNodes (docx_style_parser.cpp:252-288): among the
direct children of the document root, keep the element nodes named "style"
that have a direct element child named "qFormat" and no direct element child
named "semiHidden".  The document is represented by its root element. -/
def findStyleNodes (root : Node) : List Node :=
  (childrenOf root).filter (fun node =>
    isElement node && nodeTag node == "style" &&
    (childrenOf node).any (fun c => isElement c && nodeTag c == "qFormat") &&
    !((childrenOf node).any (fun c => isElement c && nodeTag c == "semiHidden")))

/-- Embedding of the inner attribute loop of extractFontProperties
(docx_style_parser.cpp:339-354): walk the attribute list, and at the first
attribute named ascii, hAnsi or eastAsia whose xmlGetProp lookup succeeds,
return that looked-up value. -/
def firstRFontsName (attrs allAttrs : List (String × String)) : Option String :=
  match attrs with
  | [] => none
  | (n, _) :: rest =>
    if n = "ascii" ∨ n = "hAnsi" ∨ n = "eastAsia" then
      match allAttrs.lookup n with
      | some v => some v
      | none => firstRFontsName rest allAttrs
    else firstRFontsName rest allAttrs

/-- One iteration of the child loop of extractFontProperties
(docx_style_parser.cpp:326-364). -/
def extractFontChild (child : Node) (style : StyleInfo) : StyleInfo :=
  if isElement child then
    if nodeTag child = "rFonts" then
      match firstRFontsName (attrsOf child) (attrsOf child) with
      | some v => { style with fontName := v }
      | none => style
    else if nodeTag child = "sz" then
      match getProp child "val" with
      | some v => { style with fontSize := v }
      | none => style
    else style
  else style

/-- Embedding of extractFontProperties (docx_style_parser.cpp:326-364). -/
def extractFontProperties (rPrNode : Node) (style : StyleInfo) : StyleInfo :=
  (childrenOf rPrNode).foldl (fun st c => extractFontChild c st) style

/-- Loop body of extractStyleName (docx_style_parser.cpp:378-390): stop at the
first element child named "name"; take its val attribute when present. -/
def extractStyleNameGo (children : List Node) (style : StyleInfo) : StyleInfo :=
  match children with
  | [] => style
  | child :: rest =>
    if isElement child && nodeTag child == "name" then
      match getProp child "val" with
      | some v => { style with name := v }
      | none => style
    else extractStyleNameGo rest style

/-- Embedding of extractStyleName (docx_style_parser.cpp:378-390). -/
def extractStyleName (node : Node) (style : StyleInfo) : StyleInfo :=
  extractStyleNameGo (childrenOf node) style

/-- Embedding of processXmlProperties (docx_style_parser.cpp:399-414): for an
element node, store its val attribute under its tag name, else store its full
text content (xmlNodeGetContent never fails on an element node, so the content
branch always stores). -/
def processXmlProperties (node : Node) (style : StyleInfo) : StyleInfo :=
  if isElement node then
    match getProp node "val" with
    | some v => { style with properties := mapSet style.properties (nodeTag node) v }
    | none =>
      { style with properties := mapSet style.properties (nodeTag node) (nodeContent node) }
  else style

/-- Flattening of a list of sibling nodes via processXmlProperties, as done
for the children of rPr and pPr (docx_style_parser.cpp:424-431). -/
def processChildrenProps (children : List Node) (style : StyleInfo) : StyleInfo :=
  children.foldl (fun st c => processXmlProperties c st) style

/-- One iteration of the child loop of extractOtherProperties
(docx_style_parser.cpp:416-437): rPr children get font extraction plus
flattening of their own children; pPr children get flattening of their own
children; any other element child is flattened itself. -/
def extractOtherChild (prop : Node) (style : StyleInfo) : StyleInfo :=
  if isElement prop then
    if nodeTag prop = "rPr" then
      processChildrenProps (childrenOf prop) (extractFontProperties prop style)
    else if nodeTag prop = "pPr" then
      processChildrenProps (childrenOf prop) style
    else
      processXmlProperties prop style
  else style

/-- Embedding of extractOtherProperties (docx_style_parser.cpp:416-437). -/
def extractOtherProperties (node : Node) (style : StyleInfo) : StyleInfo :=
  (childrenOf node).foldl (fun st c => extractOtherChild c st) style

/-- Embedding of processStyleNode (docx_style_parser.cpp:450-466). -/
def processStyleNode (node : Node) : StyleInfo :=
  let style : StyleInfo := {}
  let style := extractStyleName node style
  let style :=
    match getProp node "type" with
    | some t => { style with type := t }
    | none => style
  extractOtherProperties node style

/-- The five distinct throw sites of the pipeline, one constructor per
distinct runtime_error message of the source. -/
inductive DocxError where
  | openFailed (code : Int)
  | entryNotFound
  | entryOpenFailed
  | readFailed
  | parseFailed
deriving Repr, DecidableEq

/-- The exact runtime_error message thrown at each site
(docx_style_parser.cpp:110-115, 158, 169, 182, 223). -/
def errorMessage : DocxError → String
  | .openFailed code =>
    "Failed to open DOCX file: " ++
      (if code ≠ 0 then "Error code: " ++ toString code else "Unknown error")
  | .entryNotFound => "styles.xml not found in DOCX archive"
  | .entryOpenFailed => "Failed to open styles.xml in archive"
  | .readFailed => "Failed to read styles.xml content"
  | .parseFailed => "Failed to parse styles.xml content"

/-- Model of the libzip view of one opened archive, restricted to the single
entry word/styles.xml the source reads: the declared size from zip_stat (none
when the entry is absent), whether zip_fopen succeeds, and the bytes zip_fread
then delivers. -/
structure ZipArchive where
  stylesEntry : Option Nat
  stylesOpenOk : Bool
  stylesBytes : List Char
deriving Repr, DecidableEq

/-- Model of the file system seen through zip_open: for a path, either an
opened archive or the libzip error code zip_open reports. -/
structure FileSystem where
  zipOpen : String → Except Int ZipArchive

/-- Model of xmlReadMemory: some parsed tree (represented by its root
element) or none on malformed XML. -/
structure XmlParser where
  parse : List Char → Option Node

/-- Embedding of openDocxFile (docx_style_parser.cpp:97-123). -/
def openDocxFile (fs : FileSystem) (filePath : String) : Except DocxError ZipArchive :=
  match fs.zipOpen filePath with
  | .error code => .error (.openFailed code)
  | .ok zip => .ok zip

/-- Embedding of readStylesXml (docx_style_parser.cpp:150-187): stat the
entry, open it, read it, and fail when the bytes read differ from the
declared size. -/
def readStylesXml (zip : ZipArchive) : Except DocxError (List Char) :=
  match zip.stylesEntry with
  | none => .error .entryNotFound
  | some size =>
    match zip.stylesOpenOk with
    | false => .error .entryOpenFailed
    | true =>
      if zip.stylesBytes.length = size then .ok zip.stylesBytes
      else .error .readFailed

/-- Embedding of parseXml (docx_style_parser.cpp:212-229). -/
def parseXml (p : XmlParser) (xmlData : List Char) : Except DocxError Node :=
  match p.parse xmlData with
  | none => .error .parseFailed
  | some doc => .ok doc

/-- Embedding of extractDocxStyles (docx_style_parser.cpp:497-509), the public
pipeline: open, read, parse, locate, build one record per located node; an
error thrown by any stage propagates to the caller unchanged. -/
def extractDocxStyles (fs : FileSystem) (p : XmlParser) (filePath : String) :
    Except DocxError (List StyleInfo) :=
  match openDocxFile fs filePath with
  | .error e => .error e
  | .ok zip =>
    match readStylesXml zip with
    | .error e => .error e
    | .ok stylesXml =>
      match parseXml p stylesXml with
      | .error e => .error e
      | .ok doc => .ok ((findStyleNodes doc).map processStyleNode)

/-- Looking up the key just written by mapSet yields the written value. -/
theorem lookup_mapSet_self (m : List (String × String)) (k v : String) :
    (mapSet m k v).lookup k = some v := by
  induction m with
  | nil => simp [mapSet, List.lookup]
  | cons kv rest ih =>
    obtain ⟨k₁, v₁⟩ := kv
    by_cases h : k₁ = k
    · simp [mapSet, h, List.lookup]
    · have hb : (k == k₁) = false := beq_eq_false_iff_ne.mpr (Ne.symm h)
      simp [mapSet, h, List.lookup, hb, ih]

/-- mapSet leaves lookups of other keys unchanged. -/
theorem lookup_mapSet_ne (m : List (String × String)) (k k₂ v : String) (h : k₂ ≠ k) :
    (mapSet m k v).lookup k₂ = m.lookup k₂ := by
  have hb : (k₂ == k) = false := beq_eq_false_iff_ne.mpr h
  induction m with
  | nil => simp [mapSet, List.lookup, hb]
  | cons kv rest ih =>
    obtain ⟨k₁, v₁⟩ := kv
    by_cases h₁ : k₁ = k
    · subst h₁
      simp [mapSet, List.lookup, hb]
    · by_cases h₂ : k₂ = k₁
      · subst h₂
        simp [mapSet, h₁, List.lookup, ih]
      · have hb₂ : (k₂ == k₁) = false := beq_eq_false_iff_ne.mpr h₂
        simp [mapSet, h₁, List.lookup, hb₂, ih]

/-- C2: the style locator keeps exactly the direct children of the root that
are element nodes tagged "style", have a direct element child tagged
"qFormat", and have no direct element child tagged "semiHidden". -/
theorem C2_findStyleNodes_characterization (root node : Node) :
    node ∈ findStyleNodes root ↔
      node ∈ childrenOf root ∧ isElement node = true ∧ nodeTag node = "style" ∧
      (∃ c ∈ childrenOf node, isElement c = true ∧ nodeTag c = "qFormat") ∧
      ¬ ∃ c ∈ childrenOf node, isElement c = true ∧ nodeTag c = "semiHidden" := by
  simp [findStyleNodes, List.mem_filter, and_assoc]

/-- C6: ordinary property flattening of one element stores its val attribute
under its tag when present, otherwise its full text content when non-empty,
otherwise the empty string; in particular a bare qFormat element yields the
entry qFormat ↦ "". -/
theorem C6_processXmlProperties_cases (tag : String) (attrs : List (String × String))
    (cs : List Node) (st : StyleInfo) :
    (∀ v, attrs.lookup "val" = some v →
      ((processXmlProperties (.elem tag attrs cs) st).properties).lookup tag = some v) ∧
    (attrs.lookup "val" = none → nodeContent (.elem tag attrs cs) ≠ "" →
      ((processXmlProperties (.elem tag attrs cs) st).properties).lookup tag
        = some (nodeContent (.elem tag attrs cs))) ∧
    (attrs.lookup "val" = none → nodeContent (.elem tag attrs cs) = "" →
      ((processXmlProperties (.elem tag attrs cs) st).properties).lookup tag = some "") ∧
    ((processXmlProperties (.elem "qFormat" ([] : List (String × String)) ([] : List Node))
        st).properties).lookup "qFormat" = some "" := by
  refine ⟨?_, ?_, ?_, ?_⟩
  · intro v hv
    simp [processXmlProperties, isElement, getProp, attrsOf, nodeTag, hv, lookup_mapSet_self]
  · intro hv _
    simp [processXmlProperties, isElement, getProp, attrsOf, nodeTag, hv, lookup_mapSet_self]
  · intro hv hc
    simp [processXmlProperties, isElement, getProp, attrsOf, nodeTag, hv, hc, lookup_mapSet_self]
  · simp [processXmlProperties, isElement, getProp, attrsOf, nodeTag, nodeContent,
      listContent, List.lookup, lookup_mapSet_self]

/-- Witness for C6 at concrete inputs: a sz element with val="24" stores
sz ↦ "24", and a bare qFormat element stores qFormat ↦ "". -/
theorem C6_processXmlProperties_cases_witness :
    ((processXmlProperties (.elem "sz" [("val", "24")] []) {}).properties).lookup "sz"
      = some "24" ∧
    ((processXmlProperties (.elem "qFormat" ([] : List (String × String)) ([] : List Node))
        ({} : StyleInfo)).properties).lookup "qFormat" = some "" :=
  ⟨(C6_processXmlProperties_cases "sz" [("val", "24")] [] {}).1 "24" rfl,
   (C6_processXmlProperties_cases "sz" [("val", "24")] [] {}).2.2.2⟩

/-- An rFonts element carrying eastAsia before hAnsi in its attribute list,
as used to refute C1's order-independence. -/
def rFontsSwapped : Node := .elem "rFonts" [("eastAsia", "MS Mincho"), ("hAnsi", "Calibri")] []

/-- A run-properties node whose only child is rFontsSwapped. -/
def rPrSwapped : Node := .elem "rPr" [] [rFontsSwapped]

/-- C1 counterexample: with hAnsi="Calibri" and eastAsia="MS Mincho" and no
ascii, but eastAsia written first on the element, the extracted font name is
"MS Mincho", not "Calibri" — the result does depend on the order the
attributes appear, refuting the fixed priority ascii > hAnsi > eastAsia. -/
theorem C1_counterexample_attr_order_dependent :
    (extractFontProperties rPrSwapped {}).fontName = "MS Mincho" ∧
    ¬ (extractFontProperties rPrSwapped {}).fontName = "Calibri" := by
  constructor <;> decide

/-- C1 amended: the font name is taken from the first of the attributes
ascii, hAnsi, eastAsia in the element's attribute-list order; with
hAnsi="Calibri"-style and eastAsia values present and no ascii, the result is
whichever of the two appears first on the element. -/
theorem C1_amended_first_attr_in_list_order (hv ev : String) :
    (extractFontProperties
        (.elem "rPr" [] [.elem "rFonts" [("hAnsi", hv), ("eastAsia", ev)] []]) {}).fontName
      = hv ∧
    (extractFontProperties
        (.elem "rPr" [] [.elem "rFonts" [("eastAsia", ev), ("hAnsi", hv)] []]) {}).fontName
      = ev := by
  constructor <;> rfl

/-- Witness for the amended C1 at the concrete fonts of the spec scenario:
with hAnsi="Calibri" first on the element, "Calibri" is extracted. -/
theorem C1_amended_first_attr_in_list_order_witness :
    (extractFontProperties
        (.elem "rPr" []
          [.elem "rFonts" [("hAnsi", "Calibri"), ("eastAsia", "MS Mincho")] []])
        {}).fontName = "Calibri" :=
  (C1_amended_first_attr_in_list_order "Calibri" "MS Mincho").1

/-- A concrete styles root: a qualifying style and a semiHidden style. -/
def rootEx : Node :=
  .elem "styles" []
    [.elem "style" [] [.elem "qFormat" [] []],
     .elem "style" [] [.elem "qFormat" [] [], .elem "semiHidden" [] []]]

/-- Witness for C2: the qualifying style element of rootEx is located. -/
theorem C2_findStyleNodes_characterization_witness :
    (Node.elem "style" [] [.elem "qFormat" [] []]) ∈ findStyleNodes rootEx :=
  (C2_findStyleNodes_characterization rootEx _).mpr
    ⟨List.mem_cons_self _ _, rfl, rfl,
     ⟨.elem "qFormat" [] [], List.mem_cons_self _ _, rfl, rfl⟩,
     by
       rintro ⟨c, hc, he, ht⟩
       rcases List.mem_singleton.mp hc with rfl
       exact absurd ht (by decide)⟩

/-- processXmlProperties only touches the properties map, never the name. -/
theorem processXmlProperties_name (n : Node) (st : StyleInfo) :
    (processXmlProperties n st).name = st.name := by
  unfold processXmlProperties
  split
  · split <;> rfl
  · rfl

/-- Flattening a list of nodes never changes the name. -/
theorem processChildrenProps_name (cs : List Node) (st : StyleInfo) :
    (processChildrenProps cs st).name = st.name := by
  induction cs generalizing st with
  | nil => rfl
  | cons c rest ih =>
    simpa [processChildrenProps] using
      (ih (processXmlProperties c st)).trans (processXmlProperties_name c st)

/-- Font extraction only touches fontName and fontSize, never the name. -/
theorem extractFontChild_name (c : Node) (st : StyleInfo) :
    (extractFontChild c st).name = st.name := by
  unfold extractFontChild
  split
  · split
    · split <;> rfl
    · split
      · split <;> rfl
      · rfl
  · rfl

/-- extractFontProperties never changes the name. -/
theorem extractFontProperties_name (rPrNode : Node) (st : StyleInfo) :
    (extractFontProperties rPrNode st).name = st.name := by
  unfold extractFontProperties
  generalize childrenOf rPrNode = cs
  induction cs generalizing st with
  | nil => rfl
  | cons c rest ih =>
    simpa using (ih (extractFontChild c st)).trans (extractFontChild_name c st)

/-- One step of the property loop never changes the name. -/
theorem extractOtherChild_name (c : Node) (st : StyleInfo) :
    (extractOtherChild c st).name = st.name := by
  unfold extractOtherChild
  split
  · split
    · exact (processChildrenProps_name _ _).trans (extractFontProperties_name _ _)
    · split
      · exact processChildrenProps_name _ _
      · exact processXmlProperties_name _ _
  · rfl

/-- extractOtherProperties never changes the name. -/
theorem extractOtherProperties_name (node : Node) (st : StyleInfo) :
    (extractOtherProperties node st).name = st.name := by
  unfold extractOtherProperties
  generalize childrenOf node = cs
  induction cs generalizing st with
  | nil => rfl
  | cons c rest ih =>
    simpa using (ih (extractOtherChild c st)).trans (extractOtherChild_name c st)

/-- The name loop skips every leading child that is not an element named
"name" and settles at the first one that is, reading its val attribute. -/
theorem extractStyleNameGo_first (pre : List Node) (c : Node) (rest : List Node)
    (st : StyleInfo)
    (hpre : ∀ x ∈ pre, ¬(isElement x = true ∧ nodeTag x = "name"))
    (hc : isElement c = true) (hn : nodeTag c = "name") :
    extractStyleNameGo (pre ++ c :: rest) st =
      match getProp c "val" with
      | some v => { st with name := v }
      | none => st := by
  induction pre with
  | nil => simp [extractStyleNameGo, hc, hn]
  | cons x xs ih =>
    have hx := hpre x (List.mem_cons_self x xs)
    have hcond : ¬(isElement x = true ∧ nodeTag x = "name") := hx
    have : (isElement x && nodeTag x == "name") = false := by
      cases h : isElement x with
      | false => simp
      | true =>
        have hne : nodeTag x ≠ "name" := fun hh => hcond ⟨h, hh⟩
        simp [hne]
    simp only [List.cons_append, extractStyleNameGo, this]
    exact ih (fun y hy => hpre y (List.mem_cons_of_mem x hy))

/-- C8: the record name comes from the first child element named "name" via
its val attribute, not from any attribute on the style element itself, and the
value is preserved exactly with no trimming or normalization. -/
theorem C8_name_from_name_child_val (sTag : String) (sAttrs : List (String × String))
    (pre : List Node) (nAttrs : List (String × String)) (nCs rest : List Node) (v : String)
    (hpre : ∀ x ∈ pre, ¬(isElement x = true ∧ nodeTag x = "name"))
    (hval : nAttrs.lookup "val" = some v) :
    (processStyleNode (.elem sTag sAttrs (pre ++ .elem "name" nAttrs nCs :: rest))).name
      = v := by
  unfold processStyleNode
  rw [extractOtherProperties_name]
  have hgo : extractStyleName (.elem sTag sAttrs (pre ++ .elem "name" nAttrs nCs :: rest))
      ({} : StyleInfo) = { ({} : StyleInfo) with name := v } := by
    unfold extractStyleName
    rw [show childrenOf (.elem sTag sAttrs (pre ++ .elem "name" nAttrs nCs :: rest))
        = pre ++ .elem "name" nAttrs nCs :: rest from rfl]
    rw [extractStyleNameGo_first pre (.elem "name" nAttrs nCs) rest ({} : StyleInfo)
      hpre rfl rfl]
    simp [getProp, attrsOf, hval]
  rw [hgo]
  split <;> rfl

/-- Witness for C8: a style element whose own attribute list carries a decoy
name attribute still takes its record name from the name child's
val="Heading 1", exactly. -/
theorem C8_name_from_name_child_val_witness :
    (processStyleNode (.elem "style" [("name", "decoy")]
        ([Node.text "ws"] ++ .elem "name" [("val", "Heading 1")] [] ::
          [Node.elem "qFormat" [] []]))).name = "Heading 1" :=
  C8_name_from_name_child_val "style" [("name", "decoy")] [Node.text "ws"]
    [("val", "Heading 1")] [] [Node.elem "qFormat" [] []] "Heading 1"
    (by decide) rfl

/-- C10: name extraction stops at the first child element named "name"; when
that child has no val attribute the record name stays empty even if a later
sibling named "name" does carry a val attribute. -/
theorem C10_first_name_child_wins (sTag : String) (sAttrs : List (String × String))
    (pre : List Node) (nAttrs : List (String × String)) (nCs rest : List Node)
    (hpre : ∀ x ∈ pre, ¬(isElement x = true ∧ nodeTag x = "name"))
    (hval : nAttrs.lookup "val" = none) :
    (processStyleNode (.elem sTag sAttrs (pre ++ .elem "name" nAttrs nCs :: rest))).name
      = "" := by
  unfold processStyleNode
  rw [extractOtherProperties_name]
  have hgo : extractStyleName (.elem sTag sAttrs (pre ++ .elem "name" nAttrs nCs :: rest))
      ({} : StyleInfo) = ({} : StyleInfo) := by
    unfold extractStyleName
    rw [show childrenOf (.elem sTag sAttrs (pre ++ .elem "name" nAttrs nCs :: rest))
        = pre ++ .elem "name" nAttrs nCs :: rest from rfl]
    rw [extractStyleNameGo_first pre (.elem "name" nAttrs nCs) rest ({} : StyleInfo)
      hpre rfl rfl]
    simp [getProp, attrsOf, hval]
  rw [hgo]
  split <;> rfl

/-- Witness for C10: the first name child has no val attribute, a later name
sibling has val="Late", and the record name stays empty. -/
theorem C10_first_name_child_wins_witness :
    (processStyleNode (.elem "style" []
        ([Node.text "ws"] ++ .elem "name" [("id", "x")] [] ::
          [Node.elem "name" [("val", "Late")] []]))).name = "" :=
  C10_first_name_child_wins "style" [] [Node.text "ws"] [("id", "x")] []
    [Node.elem "name" [("val", "Late")] []] (by decide) rfl

/-- C7: during record building, a direct child tagged rPr contributes font
extraction AND ordinary flattening of each of its own children (both apply), a
direct child tagged pPr contributes ordinary flattening of each of its own
children with no font extraction, and any other direct element child is itself
flattened as one ordinary property; the loop then continues on the remaining
children from the state so produced. -/
theorem C7_extractOtherProperties_dispatch (sTag : String)
    (sAttrs cAttrs : List (String × String)) (cCs rest : List Node)
    (st : StyleInfo) (other : Node) :
    (extractOtherProperties (.elem sTag sAttrs (.elem "rPr" cAttrs cCs :: rest)) st
      = rest.foldl (fun s c => extractOtherChild c s)
          (processChildrenProps cCs (extractFontProperties (.elem "rPr" cAttrs cCs) st))) ∧
    (extractOtherProperties (.elem sTag sAttrs (.elem "pPr" cAttrs cCs :: rest)) st
      = rest.foldl (fun s c => extractOtherChild c s) (processChildrenProps cCs st)) ∧
    (isElement other = true → nodeTag other ≠ "rPr" → nodeTag other ≠ "pPr" →
      extractOtherProperties (.elem sTag sAttrs (other :: rest)) st
        = rest.foldl (fun s c => extractOtherChild c s) (processXmlProperties other st)) := by
  refine ⟨?_, ?_, ?_⟩
  · simp [extractOtherProperties, childrenOf, extractOtherChild, isElement, nodeTag]
  · simp [extractOtherProperties, childrenOf, extractOtherChild, isElement, nodeTag]
  · intro he hr hp
    simp [extractOtherProperties, childrenOf, extractOtherChild, he, hr, hp]

/-- Witness for C7 at a concrete style node: the rPr branch both extracts the
font and flattens the rPr children, and a plain b child is flattened itself. -/
theorem C7_extractOtherProperties_dispatch_witness :
    (extractOtherProperties
        (.elem "style" []
          [.elem "rPr" [] [.elem "rFonts" [("ascii", "Arial")] []]]) {}
      = ([] : List Node).foldl (fun s c => extractOtherChild c s)
          (processChildrenProps [.elem "rFonts" [("ascii", "Arial")] []]
            (extractFontProperties
              (.elem "rPr" [] [.elem "rFonts" [("ascii", "Arial")] []]) {}))) ∧
    (extractOtherProperties (.elem "style" [] [.elem "b" [] []]) {}
      = ([] : List Node).foldl (fun s c => extractOtherChild c s)
          (processXmlProperties (.elem "b" [] []) {})) :=
  ⟨(C7_extractOtherProperties_dispatch "style" [] []
      [.elem "rFonts" [("ascii", "Arial")] []] [] {} (.elem "b" [] [])).1,
   (C7_extractOtherProperties_dispatch "style" [] [] [] [] {} (.elem "b" [] [])).2.2
      rfl (by decide) (by decide)⟩

/-- Font extraction never touches the properties map. -/
theorem extractFontProperties_properties (rPrNode : Node) (st : StyleInfo) :
    (extractFontProperties rPrNode st).properties = st.properties := by
  unfold extractFontProperties
  generalize childrenOf rPrNode = cs
  induction cs generalizing st with
  | nil => rfl
  | cons c rest ih =>
    have hstep : (extractFontChild c st).properties = st.properties := by
      unfold extractFontChild
      split
      · split
        · split <;> rfl
        · split
          · split <;> rfl
          · rfl
      · rfl
    simpa using (ih (extractFontChild c st)).trans hstep

/-- Flattening a node that is not an element with the given tag leaves the
lookup of that tag in the properties map unchanged. -/
theorem processXmlProperties_lookup_ne (n : Node) (st : StyleInfo) (k : String)
    (h : ¬(isElement n = true ∧ nodeTag n = k)) :
    ((processXmlProperties n st).properties).lookup k = st.properties.lookup k := by
  unfold processXmlProperties
  cases he : isElement n with
  | false => simp
  | true =>
    have hk : nodeTag n ≠ k := fun hh => h ⟨he, hh⟩
    simp only [he, if_true]
    cases hv : getProp n "val" <;>
      simp [lookup_mapSet_ne _ _ _ _ (Ne.symm hk)]

/-- extractOtherChild on an element child tagged rPr: font extraction then
flattening of the container's own children. -/
theorem extractOtherChild_rPr (c : Node) (st : StyleInfo)
    (he : isElement c = true) (hr : nodeTag c = "rPr") :
    extractOtherChild c st
      = processChildrenProps (childrenOf c) (extractFontProperties c st) := by
  unfold extractOtherChild
  simp [he, hr]

/-- extractOtherChild on an element child tagged pPr: flattening of the
container's own children, no font extraction. -/
theorem extractOtherChild_pPr (c : Node) (st : StyleInfo)
    (he : isElement c = true) (hp : nodeTag c = "pPr") :
    extractOtherChild c st = processChildrenProps (childrenOf c) st := by
  unfold extractOtherChild
  simp [he, hp]

/-- extractOtherChild on any other element child: the child is flattened
itself. -/
theorem extractOtherChild_other (c : Node) (st : StyleInfo)
    (he : isElement c = true) (hr : nodeTag c ≠ "rPr") (hp : nodeTag c ≠ "pPr") :
    extractOtherChild c st = processXmlProperties c st := by
  unfold extractOtherChild
  simp [he, hr, hp]

/-- Flattening a list of nodes none of which is an element with the given tag
leaves the lookup of that tag unchanged. -/
theorem processChildrenProps_lookup_ne (cs : List Node) (st : StyleInfo) (k : String)
    (h : ∀ c ∈ cs, ¬(isElement c = true ∧ nodeTag c = k)) :
    ((processChildrenProps cs st).properties).lookup k = st.properties.lookup k := by
  induction cs generalizing st with
  | nil => rfl
  | cons c rest ih =>
    have hstep := processXmlProperties_lookup_ne c st k (h c (List.mem_cons_self c rest))
    have htail := ih (processXmlProperties c st) (fun y hy => h y (List.mem_cons_of_mem c hy))
    simpa [processChildrenProps] using htail.trans hstep

/-- C3: when font-specific handling applies to a run-properties container, the
container itself is never duplicated as an ordinary property entry: as long as
no rPr or pPr container holds a nested element child again named rPr, the
produced record's properties map holds no entry keyed "rPr" (the ordinary
flattening is only ever applied to the containers' children, never to the
handled container itself). -/
theorem C3_no_rpr_property_entry (node : Node)
    (hgc : ∀ prop ∈ childrenOf node, isElement prop = true →
      (nodeTag prop = "rPr" ∨ nodeTag prop = "pPr") →
      ∀ c ∈ childrenOf prop, ¬(isElement c = true ∧ nodeTag c = "rPr")) :
    ((processStyleNode node).properties).lookup "rPr" = none := by
  unfold processStyleNode
  have hstart : ∀ st : StyleInfo,
      (extractStyleName node st).properties = st.properties := by
    intro st
    unfold extractStyleName
    generalize childrenOf node = cs
    induction cs generalizing st with
    | nil => rfl
    | cons c rest ih =>
      unfold extractStyleNameGo
      split
      · split <;> rfl
      · exact ih st
  have hmid : ∀ st : StyleInfo,
      (match getProp node "type" with
        | some t => { st with type := t }
        | none => st).properties = st.properties := by
    intro st
    split <;> rfl
  have hinv : ∀ (cs : List Node) (st : StyleInfo),
      (∀ prop ∈ cs, isElement prop = true →
        (nodeTag prop = "rPr" ∨ nodeTag prop = "pPr") →
        ∀ c ∈ childrenOf prop, ¬(isElement c = true ∧ nodeTag c = "rPr")) →
      st.properties.lookup "rPr" = none →
      ((cs.foldl (fun s c => extractOtherChild c s) st).properties).lookup "rPr" = none := by
    intro cs
    induction cs with
    | nil => intro st _ hst; simpa using hst
    | cons c rest ih =>
      intro st hcs hst
      have hstep : ((extractOtherChild c st).properties).lookup "rPr" = none := by
        cases he : isElement c with
        | false =>
          have : extractOtherChild c st = st := by
            unfold extractOtherChild
            simp [he]
          rw [this]
          exact hst
        | true =>
          by_cases hr : nodeTag c = "rPr"
          · have hkids := hcs c (List.mem_cons_self c rest) he (Or.inl hr)
            rw [extractOtherChild_rPr c st he hr,
              processChildrenProps_lookup_ne _ _ _ hkids,
              extractFontProperties_properties]
            exact hst
          · by_cases hp : nodeTag c = "pPr"
            · have hkids := hcs c (List.mem_cons_self c rest) he (Or.inr hp)
              rw [extractOtherChild_pPr c st he hp,
                processChildrenProps_lookup_ne _ _ _ hkids]
              exact hst
            · rw [extractOtherChild_other c st he hr hp,
                processXmlProperties_lookup_ne c st "rPr" (fun hh => hr hh.2)]
              exact hst
      exact ih (extractOtherChild c st) (fun y hy => hcs y (List.mem_cons_of_mem c hy)) hstep
  unfold extractOtherProperties
  refine hinv (childrenOf node) _ hgc ?_
  rw [hmid, hstart]
  rfl

/-- Witness for C3: a style with an rPr container (handled by font
extraction), a pPr container and an ordinary child produces a record with no
properties entry keyed "rPr". -/
theorem C3_no_rpr_property_entry_witness :
    ((processStyleNode (.elem "style" [("type", "paragraph")]
        [.elem "name" [("val", "Normal")] [],
         .elem "rPr" [] [.elem "rFonts" [("ascii", "Arial")] [], .elem "sz" [("val", "24")] []],
         .elem "pPr" [] [.elem "spacing" [("val", "240")] []],
         .elem "qFormat" [] []])).properties).lookup "rPr" = none :=
  C3_no_rpr_property_entry _ (by decide)

/-- The rFonts element children of a list of siblings, in document order. -/
def rFontsChildren (cs : List Node) : List Node :=
  cs.filter (fun c => isElement c && nodeTag c == "rFonts")

/-- An rFonts child whose attribute scan succeeds overwrites fontName with
the scanned value. -/
theorem extractFontChild_rfonts_some (c : Node) (st : StyleInfo) (v : String)
    (he : isElement c = true) (hn : nodeTag c = "rFonts")
    (hf : firstRFontsName (attrsOf c) (attrsOf c) = some v) :
    (extractFontChild c st).fontName = v := by
  unfold extractFontChild
  simp [he, hn, hf]

/-- A child that is not an rFonts element leaves fontName unchanged. -/
theorem extractFontChild_not_rfonts_fontName (c : Node) (st : StyleInfo)
    (h : (isElement c && nodeTag c == "rFonts") = false) :
    (extractFontChild c st).fontName = st.fontName := by
  unfold extractFontChild
  cases he : isElement c with
  | false => simp
  | true =>
    have hn : nodeTag c ≠ "rFonts" := by
      rw [he] at h
      simpa using h
    simp only [he, if_true]
    rw [if_neg hn]
    split
    · cases hv : getProp c "val" <;> simp
    · rfl

/-- A run of children containing no rFonts element leaves fontName
unchanged. -/
theorem fontFold_no_rfonts (cs : List Node) (st : StyleInfo)
    (h : ∀ c ∈ cs, ¬((isElement c && nodeTag c == "rFonts") = true)) :
    (cs.foldl (fun s c => extractFontChild c s) st).fontName = st.fontName := by
  induction cs generalizing st with
  | nil => rfl
  | cons c rest ih =>
    have hc : (isElement c && nodeTag c == "rFonts") = false :=
      Bool.eq_false_iff.mpr (h c (List.mem_cons_self c rest))
    simp only [List.foldl_cons]
    rw [ih _ (fun y hy => h y (List.mem_cons_of_mem c hy)),
      extractFontChild_not_rfonts_fontName c st hc]

/-- Folding the font-extraction step over a child list whose rFonts elements
all scan successfully ends with the value scanned from the last rFonts
element in document order. -/
theorem fontFold_last_rfonts (cs : List Node) :
    ∀ (st : StyleInfo) (f : Node),
      (rFontsChildren cs).getLast? = some f →
      (∀ g ∈ rFontsChildren cs, ∃ v, firstRFontsName (attrsOf g) (attrsOf g) = some v) →
      ∃ v, firstRFontsName (attrsOf f) (attrsOf f) = some v ∧
        (cs.foldl (fun s c => extractFontChild c s) st).fontName = v := by
  induction cs with
  | nil =>
    intro st f hlast _
    simp [rFontsChildren] at hlast
  | cons c rest ih =>
    intro st f hlast hall
    by_cases hc : (isElement c && nodeTag c == "rFonts") = true
    · have hcs : rFontsChildren (c :: rest) = c :: rFontsChildren rest :=
        List.filter_cons_of_pos hc
      have he : isElement c = true := (Bool.and_eq_true _ _).mp hc |>.1
      have hn : nodeTag c = "rFonts" := by
        have := (Bool.and_eq_true _ _).mp hc |>.2
        exact eq_of_beq this
      rcases hall c (by rw [hcs]; exact List.mem_cons_self _ _) with ⟨v, hv⟩
      cases hrest : rFontsChildren rest with
      | nil =>
        have hf : f = c := by
          rw [hcs, hrest] at hlast
          simpa using hlast.symm
        rw [hf]
        refine ⟨v, hv, ?_⟩
        simp only [List.foldl_cons]
        have hno : ∀ y ∈ rest, ¬((isElement y && nodeTag y == "rFonts") = true) := by
          intro y hy
          have := List.filter_eq_nil_iff.mp hrest y hy
          simpa using this
        rw [fontFold_no_rfonts rest _ hno]
        exact extractFontChild_rfonts_some c st v he hn hv
      | cons d ds =>
        have hlast₂ : (rFontsChildren rest).getLast? = some f := by
          rw [hcs, hrest] at hlast
          rw [hrest]
          rw [List.getLast?_cons_cons] at hlast
          exact hlast
        simp only [List.foldl_cons]
        exact ih (extractFontChild c st) f hlast₂
          (fun g hg => hall g (by rw [hcs]; exact List.mem_cons_of_mem _ hg))
    · have hc₂ : (isElement c && nodeTag c == "rFonts") = false :=
        Bool.eq_false_iff.mpr hc
      have hcs : rFontsChildren (c :: rest) = rFontsChildren rest :=
        List.filter_cons_of_neg (by simpa using hc)
      simp only [List.foldl_cons]
      refine ih (extractFontChild c st) f ?_ ?_
      · rw [hcs] at hlast
        exact hlast
      · intro g hg
        exact hall g (by rw [hcs]; exact hg)

/-- Inside one attribute list, leading attributes that are none of ascii,
hAnsi, eastAsia are skipped by the scan. -/
theorem firstRFontsName_skip (pre : List (String × String))
    (tail allAttrs : List (String × String))
    (hpre : ∀ p ∈ pre, ¬(p.1 = "ascii" ∨ p.1 = "hAnsi" ∨ p.1 = "eastAsia")) :
    firstRFontsName (pre ++ tail) allAttrs = firstRFontsName tail allAttrs := by
  induction pre with
  | nil => rfl
  | cons p ps ih =>
    obtain ⟨n, w⟩ := p
    have hn := hpre (n, w) (List.mem_cons_self _ _)
    simp only [List.cons_append, firstRFontsName]
    rw [if_neg hn]
    exact ih (fun q hq => hpre q (List.mem_cons_of_mem _ hq))

/-- Keys that are not font attribute names never shadow the lookup of a font
attribute name. -/
theorem lookup_append_not_font (pre : List (String × String)) (n v : String)
    (post : List (String × String))
    (hfont : n = "ascii" ∨ n = "hAnsi" ∨ n = "eastAsia")
    (hpre : ∀ p ∈ pre, ¬(p.1 = "ascii" ∨ p.1 = "hAnsi" ∨ p.1 = "eastAsia")) :
    (pre ++ (n, v) :: post).lookup n = some v := by
  induction pre with
  | nil => simp [List.lookup]
  | cons p ps ih =>
    obtain ⟨k, w⟩ := p
    have hk : k ≠ n := by
      intro hkn
      exact hpre (k, w) (List.mem_cons_self _ _) (hkn ▸ hfont)
    have hb : (n == k) = false := beq_eq_false_iff_ne.mpr (Ne.symm hk)
    simp only [List.cons_append, List.lookup, hb]
    exact ih (fun q hq => hpre q (List.mem_cons_of_mem _ hq))

/-- C9: with several rFonts children each carrying at least one of the
attributes ascii, hAnsi, eastAsia, the record's fontName comes from the last
such rFonts element in document order (later elements overwrite earlier
ones), and within one rFonts element the scan takes the first attribute of
the list order whose name is ascii, hAnsi or eastAsia. -/
theorem C9_last_rfonts_overwrites :
    (∀ (rPrNode : Node) (st : StyleInfo) (f : Node),
      (rFontsChildren (childrenOf rPrNode)).getLast? = some f →
      (∀ g ∈ rFontsChildren (childrenOf rPrNode),
        ∃ v, firstRFontsName (attrsOf g) (attrsOf g) = some v) →
      ∃ v, firstRFontsName (attrsOf f) (attrsOf f) = some v ∧
        (extractFontProperties rPrNode st).fontName = v) ∧
    (∀ (pre : List (String × String)) (n v : String) (post : List (String × String)),
      (n = "ascii" ∨ n = "hAnsi" ∨ n = "eastAsia") →
      (∀ p ∈ pre, ¬(p.1 = "ascii" ∨ p.1 = "hAnsi" ∨ p.1 = "eastAsia")) →
      firstRFontsName (pre ++ (n, v) :: post) (pre ++ (n, v) :: post) = some v) := by
  constructor
  · intro rPrNode st f hlast hall
    exact fontFold_last_rfonts (childrenOf rPrNode) st f hlast hall
  · intro pre n v post hfont hpre
    rw [firstRFontsName_skip pre _ _ hpre]
    simp only [firstRFontsName]
    rw [if_pos hfont, lookup_append_not_font pre n v post hfont hpre]

/-- Witness for C9: two rFonts children, the first carrying ascii="First",
the second carrying a non-font attribute then eastAsia="Second"; the record's
fontName is "Second", the scan of the second element having skipped the
non-font attribute. -/
theorem C9_last_rfonts_overwrites_witness :
    ∃ v, firstRFontsName [("cs", "x"), ("eastAsia", "Second")]
        [("cs", "x"), ("eastAsia", "Second")] = some v ∧
      (extractFontProperties
        (.elem "rPr" []
          [.elem "rFonts" [("ascii", "First")] [],
           .elem "rFonts" [("cs", "x"), ("eastAsia", "Second")] []]) {}).fontName = v :=
  C9_last_rfonts_overwrites.1
    (.elem "rPr" []
      [.elem "rFonts" [("ascii", "First")] [],
       .elem "rFonts" [("cs", "x"), ("eastAsia", "Second")] []])
    {} (.elem "rFonts" [("cs", "x"), ("eastAsia", "Second")] [])
    rfl
    (by
      intro g hg
      fin_cases hg
      · exact ⟨"First", rfl⟩
      · exact ⟨"Second", rfl⟩)

/-- Evaluation of the whole pipeline by cases over the collaborator
behaviour. -/
theorem extractDocxStyles_eq (fs : FileSystem) (p : XmlParser) (path : String) :
    extractDocxStyles fs p path =
      match fs.zipOpen path with
      | .error code => .error (.openFailed code)
      | .ok zip =>
        match zip.stylesEntry with
        | none => .error .entryNotFound
        | some size =>
          match zip.stylesOpenOk with
          | false => .error .entryOpenFailed
          | true =>
            if zip.stylesBytes.length = size then
              match p.parse zip.stylesBytes with
              | none => .error .parseFailed
              | some doc => .ok ((findStyleNodes doc).map processStyleNode)
            else .error .readFailed := by
  unfold extractDocxStyles openDocxFile readStylesXml parseXml
  cases hz : fs.zipOpen path with
  | error code => rfl
  | ok zip =>
    cases hs : zip.stylesEntry with
    | none => simp [hs]
    | some size =>
      cases ho : zip.stylesOpenOk with
      | false => simp [hs, ho]
      | true =>
        by_cases hl : zip.stylesBytes.length = size
        · cases hp : p.parse zip.stylesBytes <;> simp [hs, ho, hl, hp]
        · simp [hs, ho, hl]

/-- The open-failure message is at least 38 characters long, whatever the
reported code. -/
theorem openFailed_message_long (code : Int) :
    38 ≤ (errorMessage (.openFailed code)).length := by
  simp only [errorMessage]
  by_cases h : code = 0
  · rw [if_neg (not_not_intro h)]
    decide
  · rw [if_pos h]
    rw [String.length_append, String.length_append]
    have h₁ : ("Failed to open DOCX file: " : String).length = 26 := by decide
    have h₂ : ("Error code: " : String).length = 12 := by decide
    omega

/-- The open-failure message differs from every message of at most 37
characters. -/
theorem openFailed_message_ne (code : Int) (e : DocxError)
    (he : (errorMessage e).length ≤ 37) :
    errorMessage (.openFailed code) ≠ errorMessage e := by
  intro h
  have hlong := openFailed_message_long code
  rw [h] at hlong
  omega

/-- C4: each failure cause of the pipeline surfaces as its own error —
OpenError when the archive cannot be opened, EntryNotFoundError when the
archive lacks word/styles.xml, ReadError when the declared entry size cannot
be fully read, ParseError on malformed XML — a success is produced exactly
when every stage succeeds (so a failure is never turned into an empty
result), and the four kinds carry pairwise distinct messages. -/
theorem C4_error_taxonomy (fs : FileSystem) (p : XmlParser) (path : String) :
    (∀ code, extractDocxStyles fs p path = .error (.openFailed code) ↔
      fs.zipOpen path = .error code) ∧
    (extractDocxStyles fs p path = .error .entryNotFound ↔
      ∃ zip, fs.zipOpen path = .ok zip ∧ zip.stylesEntry = none) ∧
    (extractDocxStyles fs p path = .error .readFailed ↔
      ∃ zip size, fs.zipOpen path = .ok zip ∧ zip.stylesEntry = some size ∧
        zip.stylesOpenOk = true ∧ ¬zip.stylesBytes.length = size) ∧
    (extractDocxStyles fs p path = .error .parseFailed ↔
      ∃ zip, fs.zipOpen path = .ok zip ∧ readStylesXml zip = .ok zip.stylesBytes ∧
        p.parse zip.stylesBytes = none) ∧
    (∀ styles, extractDocxStyles fs p path = .ok styles ↔
      ∃ zip doc, fs.zipOpen path = .ok zip ∧ readStylesXml zip = .ok zip.stylesBytes ∧
        p.parse zip.stylesBytes = some doc ∧
        styles = (findStyleNodes doc).map processStyleNode) ∧
    (∀ code,
      errorMessage (.openFailed code) ≠ errorMessage .entryNotFound ∧
      errorMessage (.openFailed code) ≠ errorMessage .readFailed ∧
      errorMessage (.openFailed code) ≠ errorMessage .parseFailed) ∧
    errorMessage .entryNotFound ≠ errorMessage .readFailed ∧
    errorMessage .entryNotFound ≠ errorMessage .parseFailed ∧
    errorMessage .readFailed ≠ errorMessage .parseFailed := by
  have heq := extractDocxStyles_eq fs p path
  refine ⟨?_, ?_, ?_, ?_, ?_,
    fun code => ⟨openFailed_message_ne code _ (by decide),
      openFailed_message_ne code _ (by decide),
      openFailed_message_ne code _ (by decide)⟩,
    by decide, by decide, by decide⟩
  · intro code
    rw [heq]
    cases hz : fs.zipOpen path with
    | error c => simp
    | ok zip =>
      cases hs : zip.stylesEntry with
      | none => simp [hs]
      | some size =>
        cases ho : zip.stylesOpenOk with
        | false => simp [hs, ho]
        | true =>
          by_cases hl : zip.stylesBytes.length = size
          · cases hp : p.parse zip.stylesBytes <;> simp [hs, ho, hl, hp]
          · simp [hs, ho, hl]
  · rw [heq]
    cases hz : fs.zipOpen path with
    | error c => simp
    | ok zip =>
      cases hs : zip.stylesEntry with
      | none => simp [hs]
      | some size =>
        cases ho : zip.stylesOpenOk with
        | false => simp [hs, ho]
        | true =>
          by_cases hl : zip.stylesBytes.length = size
          · cases hp : p.parse zip.stylesBytes <;> simp [hs, ho, hl, hp]
          · simp [hs, ho, hl]
  · rw [heq]
    cases hz : fs.zipOpen path with
    | error c => simp
    | ok zip =>
      cases hs : zip.stylesEntry with
      | none => simp [hs]
      | some size =>
        cases ho : zip.stylesOpenOk with
        | false => simp [hs, ho]
        | true =>
          by_cases hl : zip.stylesBytes.length = size
          · cases hp : p.parse zip.stylesBytes <;> simp [hs, ho, hl, hp]
          · simp [hs, ho, hl]
  · rw [heq]
    cases hz : fs.zipOpen path with
    | error c => simp
    | ok zip =>
      cases hs : zip.stylesEntry with
      | none => simp [readStylesXml, hs]
      | some size =>
        cases ho : zip.stylesOpenOk with
        | false => simp [readStylesXml, hs, ho]
        | true =>
          by_cases hl : zip.stylesBytes.length = size
          · cases hp : p.parse zip.stylesBytes <;>
              simp [readStylesXml, hs, ho, hl, hp]
          · simp [readStylesXml, hs, ho, hl]
  · intro styles
    rw [heq]
    cases hz : fs.zipOpen path with
    | error c => simp
    | ok zip =>
      cases hs : zip.stylesEntry with
      | none => simp [readStylesXml, hs]
      | some size =>
        cases ho : zip.stylesOpenOk with
        | false => simp [readStylesXml, hs, ho]
        | true =>
          by_cases hl : zip.stylesBytes.length = size
          · cases hp : p.parse zip.stylesBytes with
            | none => simp [readStylesXml, hs, ho, hl, hp]
            | some d =>
              constructor
              · intro hok
                simp only [hs, ho, hl, hp] at hok
                refine ⟨zip, d, rfl, ?_, hp, ?_⟩
                · simp [readStylesXml, hs, ho, hl]
                · injection hok with hok
                  exact hok.symm
              · rintro ⟨zip₂, d₂, hz₂, hr₂, hp₂, hst⟩
                injection hz₂ with hz₂
                subst hz₂
                rw [hp] at hp₂
                injection hp₂ with hp₂
                subst hp₂
                simp [hs, ho, hl, hp, hst]
          · simp [readStylesXml, hs, ho, hl]

/-- readStylesXml succeeds exactly when the entry exists, opens, and delivers
as many bytes as its declared size, and then returns exactly those bytes. -/
theorem readStylesXml_ok_iff (zip : ZipArchive) (bytes : List Char) :
    readStylesXml zip = .ok bytes ↔
      bytes = zip.stylesBytes ∧ zip.stylesEntry = some bytes.length ∧
        zip.stylesOpenOk = true := by
  unfold readStylesXml
  cases hs : zip.stylesEntry with
  | none => simp
  | some size =>
    cases ho : zip.stylesOpenOk with
    | false => simp
    | true =>
      by_cases hl : zip.stylesBytes.length = size
      · change (if zip.stylesBytes.length = size then Except.ok zip.stylesBytes
            else Except.error DocxError.readFailed) = Except.ok bytes ↔ _
        rw [if_pos hl]
        constructor
        · intro h
          injection h with h
          subst h
          exact ⟨rfl, by rw [hl], rfl⟩
        · rintro ⟨hb, _, _⟩
          rw [hb]
      · change (if zip.stylesBytes.length = size then Except.ok zip.stylesBytes
            else Except.error DocxError.readFailed) = Except.ok bytes ↔ _
        rw [if_neg hl]
        constructor
        · intro h
          exact Except.noConfusion h
        · rintro ⟨hb, hsz, _⟩
          subst hb
          injection hsz with hsz
          exact absurd hsz.symm hl

/-- C5: on every valid input the pipeline succeeds with exactly one record
per qualifying style element, in document order (the located nodes are a
sublist of the root's children, never reordered or deduplicated), and zero
qualifying elements yield the empty sequence, not an error. -/
theorem C5_one_record_per_qualifying_element (fs : FileSystem) (p : XmlParser)
    (path : String) (zip : ZipArchive) (bytes : List Char) (doc : Node)
    (hz : fs.zipOpen path = .ok zip)
    (hr : readStylesXml zip = .ok bytes)
    (hp : p.parse bytes = some doc) :
    extractDocxStyles fs p path = .ok ((findStyleNodes doc).map processStyleNode) ∧
    ((findStyleNodes doc).map processStyleNode).length = (findStyleNodes doc).length ∧
    List.Sublist (findStyleNodes doc) (childrenOf doc) ∧
    (findStyleNodes doc = [] → extractDocxStyles fs p path = .ok []) := by
  obtain ⟨hb, hs, ho⟩ := (readStylesXml_ok_iff zip bytes).mp hr
  subst hb
  have heq := extractDocxStyles_eq fs p path
  rw [hz] at heq
  simp [hs, ho, hp] at heq
  refine ⟨heq, List.length_map _ _, List.filter_sublist _, ?_⟩
  intro hnil
  rw [heq, hnil]
  rfl

/-- A concrete archive whose only modelled entry has declared size 1 and
delivers one byte. -/
def zipEx : ZipArchive := ⟨some 1, true, ['x']⟩

/-- A file system on which every path opens as zipEx. -/
def fsEx : FileSystem := ⟨fun _ => .ok zipEx⟩

/-- A concrete styles tree: one qualifying style, one style hidden by
semiHidden, one non-style child. -/
def docEx : Node :=
  .elem "styles" []
    [.elem "style" [("type", "paragraph")]
      [.elem "name" [("val", "Normal")] [], .elem "qFormat" [] []],
     .elem "style" []
      [.elem "qFormat" [] [], .elem "semiHidden" [] []],
     .elem "docDefaults" [] []]

/-- A parser that produces docEx from any bytes. -/
def pEx : XmlParser := ⟨fun _ => some docEx⟩

/-- Witness for C5 at the concrete collaborators: the pipeline succeeds and
returns one record per qualifying element of docEx. -/
theorem C5_one_record_per_qualifying_element_witness :
    extractDocxStyles fsEx pEx "sample.docx"
      = .ok ((findStyleNodes docEx).map processStyleNode) ∧
    ((findStyleNodes docEx).map processStyleNode).length
      = (findStyleNodes docEx).length ∧
    List.Sublist (findStyleNodes docEx) (childrenOf docEx) ∧
    (findStyleNodes docEx = [] → extractDocxStyles fsEx pEx "sample.docx" = .ok []) :=
  C5_one_record_per_qualifying_element fsEx pEx "sample.docx" zipEx ['x'] docEx
    rfl rfl rfl

/-- A file system on which every open fails with libzip code 11. -/
def fsClosed : FileSystem := ⟨fun _ => .error 11⟩

/-- Witness for C4: on a file system where the archive cannot be opened, the
pipeline fails with the open error carrying the reported code. -/
theorem C4_error_taxonomy_witness :
    extractDocxStyles fsClosed pEx "missing.docx" = .error (.openFailed 11) :=
  ((C4_error_taxonomy fsClosed pEx "missing.docx").1 11).mpr rfl

end Docx
